import Mathlib

set_option linter.unusedVariables false

namespace MixinMigrate

/-! Shallow embedding of `fox-one/mixin-migrate` (main.go, keystore.go).
Exact decimal amounts (`shopspring/decimal`) are modelled as rationals, since
that library's `Add` and `IsZero` are exact arbitrary-precision operations.
External collaborators (the mixin SDK client, `mixinnet` key codec, the ledger)
are modelled as oracle functions packaged in an `Env`; each phase returns its
result together with the ordered trace of external calls it performed. -/

/-- Exact decimal amounts (`shopspring/decimal` values) modelled as rationals. -/
abbrev Decimal := Rat

deriving instance DecidableEq for Except

/-- `mixinnet.Key` as the program uses it: a private encoding (`Key.String()`)
and the public counterpart (`Key.Public().String()`). -/
structure Key where
  priv : String
  pub : String
deriving DecidableEq

/-- The mutable credential record of keystore.go: the embedded `mixin.Keystore`
fields (client id, session id, private key, pin token) plus `pin` and the
`omitempty` field `spend_key`. -/
structure KeystoreRec where
  clientID : String
  sessionID : String
  privateKey : String
  pinToken : String
  pin : String
  spendKey : String
deriving DecidableEq

/-- A legacy asset balance (`mixin.Asset` as used in `migrateLegacyAssets`). -/
structure LegacyAsset where
  assetID : String
  balance : Decimal
  symbol : String
deriving DecidableEq

/-- A safe unspent output (`mixin.SafeUtxo` as used in `migrateSafeAssets`). -/
structure SafeUtxo where
  assetID : String
  amount : Decimal
  sequence : Nat
deriving DecidableEq

/-- One output of a safe transaction (`mixin.TransactionOutput`): the mix
address is `RequireNewMixAddress([]string{receiver}, 1)`, kept here as the
receiver list with its threshold, plus the decimal amount. -/
structure TxOutput where
  receivers : List String
  threshold : Nat
  amount : Decimal
deriving DecidableEq

/-- The receiver profile returned by `fetchUserInfo` (`mixin.User`). -/
structure User where
  userID : String
  identityNumber : String
  fullName : String
deriving DecidableEq

/-- External calls a run can perform, in order of occurrence. -/
inductive Event
  | transfer (assetID : String) (amount : Decimal) (opponent : String)
  | generateKey (k : Key)
  | modifyPin (oldPin newPub : String)
  | safeMigrate (spendKey pin : String)
  | save (rec : KeystoreRec)
  | listUtxos (offset : Nat)
  | readAsset (assetID : String)
  | makeTransaction (inputs : List SafeUtxo) (outputs : List TxOutput)
  | createRequest (requestID : String)
  | signTransaction (inputIndex : Nat)
  | submitRequest (requestID : String)
deriving DecidableEq

/-- Oracles for every external collaborator the program calls.  Fallible calls
return `Except String`; `parseKey` models `mixinnet.KeyFromString`, `pinKey`
and `spendKeyGen` the two `mixinnet.GenerateKey(rand.Reader)` results,
`save` the outcome of `saveKeystore`, `utxoPage` the `SafeListUtxos` response
for a given offset, and `txHint` the deterministic builder hint `b.Hint`. -/
structure Env where
  parseKey : String → Option Key
  pinKey : Key
  spendKeyGen : Key
  loadKeystore : Except String KeystoreRec
  readAssets : Except String (List LegacyAsset)
  transfer : String → Decimal → String → Except String Unit
  modifyPin : String → String → Except String Unit
  safeMigrate : String → String → Except String Unit
  save : KeystoreRec → Except String Unit
  utxoPage : Nat → Except String (List SafeUtxo)
  enumFuel : Nat
  readSafeAsset : String → Except String String
  makeTransaction : List SafeUtxo → List TxOutput → Except String Unit
  dumpRaw : List SafeUtxo → Except String String
  createRequest : String → String → Except String String
  signTx : List SafeUtxo → Except String Unit
  dumpSigned : List SafeUtxo → Except String String
  submit : String → String → Except String Unit
  txHint : List SafeUtxo → String
  fetchUser : Except String User
  toInt64 : String → Int
  confirm : Bool
  spendGroupCount : Nat

/-! ## UTXO batching (main.go lines 255-263)

The Go loop `for idx := 0; idx < len(utxos); idx += *spendGroupCount` takes the
slice `utxos[idx:min(len(utxos), idx+*spendGroupCount)]` at each step, i.e. it
emits consecutive chunks of size at most the group limit. -/

/-- Ceiling division on naturals. -/
def ceilDiv (m p : Nat) : Nat := (m + p - 1) / p

/-- Structural worker for `chunkGroups`: `fuel` bounds the number of chunks
(the list's length always suffices since each chunk is non-empty). -/
def chunkGroupsAux (L : Nat) : Nat → List α → List (List α)
  | _, [] => []
  | 0, _ :: _ => []
  | fuel + 1, x :: xs =>
    if L = 0 then []
    else (x :: xs).take L :: chunkGroupsAux L fuel ((x :: xs).drop L)

/-- Consecutive chunks of size `L` of a list, as produced by the spend-group
slicing loop.  `L = 0` cannot occur at the call site (main.go validates
`1 ≤ *spendGroupCount ≤ 256` before any phase runs). -/
def chunkGroups (L : Nat) (l : List α) : List (List α) :=
  chunkGroupsAux L l.length l

/-- Three concrete UTXOs of one asset, used to witness the batching theorem. -/
def demoUtxos : List SafeUtxo := [⟨"a", 1, 0⟩, ⟨"a", 2, 1⟩, ⟨"a", 3, 2⟩]

/-! ## Paginated UTXO enumeration (main.go lines 212-233)

The loop requests pages with `Offset`, `Limit 500`, ascending order, unspent
state; it stops only when a page comes back empty, and advances the offset to
`utxo.Sequence + 1` for each output of the page (so to the last one's). -/

/-- One `SafeListUtxos` response of a ledger whose unspent outputs are
`ledger` (in ascending ledger order): the first `P` outputs whose sequence is
at least `offset`. -/
def pageOf (ledger : List SafeUtxo) (P offset : Nat) :
    Except String (List SafeUtxo) :=
  .ok ((ledger.filter (fun u => decide (offset ≤ u.sequence))).take P)

/-- The enumeration loop of `migrateSafeAssets`: request a page at `offset`;
stop on an empty page; otherwise set the offset to each seen output's sequence
plus one (a `foldl`, exactly the Go `for _, utxo := range utxos` body) and
request again.  Returns the outputs visited in order, the offsets requested in
order, and whether the loop exited by itself; `fuel` merely bounds the
iterations of the unbounded Go `for` loop. -/
def collectLoop (page : Nat → Except String (List SafeUtxo)) :
    Nat → Nat → Except String (List SafeUtxo) × List Nat × Bool
  | 0, _ => (.ok [], [], false)
  | fuel + 1, offset =>
    match page offset with
    | .error e => (.error ("list safe utxos failed: " ++ e), [offset], true)
    | .ok [] => (.ok [], [offset], true)
    | .ok (u :: us) =>
      match collectLoop page fuel
          ((u :: us).foldl (fun _ x => x.sequence + 1) offset) with
      | (.error e, reqs, d) => (.error e, offset :: reqs, d)
      | (.ok rest, reqs, d) => (.ok ((u :: us) ++ rest), offset :: reqs, d)

/-- A two-output, two-asset ledger with ascending sequences. -/
def demoLedger : List SafeUtxo := [⟨"a", 1, 0⟩, ⟨"b", 2, 5⟩]

/-! ## The four migration phases (main.go lines 115-306)

Each phase is a function of the oracle environment returning its
`Except`-result together with the ordered list of external calls it made. -/

/-- `sumUtxos` (main.go lines 308-314): fold the decimal amounts, starting
from the zero decimal. -/
def sumUtxos (utxos : List SafeUtxo) : Decimal :=
  utxos.foldl (fun sum u => sum + u.amount) 0

/-- Runs an action for each element in order, stopping at the first error and
concatenating the traces, as a Go `for` loop with `return err` inside does. -/
def runSeq (f : α → Except String Unit × List Event) :
    List α → Except String Unit × List Event
  | [] => (.ok (), [])
  | x :: xs =>
    match f x with
    | (.error e, t) => (.error e, t)
    | (.ok _, t) =>
      match runSeq f xs with
      | (r, t2) => (r, t ++ t2)

/-- Phase 1, `migrateLegacyAssets` (main.go lines 115-159): list the legacy
assets, compact away the balances for which `Balance.IsZero()` holds (the
in-place filter of lines 121-131), then transfer each remaining balance in
full to the receiver, aborting on the first failed transfer. -/
def migrateLegacyAssets (env : Env) (receiver : String) :
    Except String Unit × List Event :=
  match env.readAssets with
  | .error e => (.error ("list legacy assets failed: " ++ e), [])
  | .ok assets =>
    let nonzero := assets.filter (fun a => decide (a.balance ≠ 0))
    if nonzero.isEmpty then (.ok (), [])
    else
      runSeq (fun a =>
        match env.transfer a.assetID a.balance receiver with
        | .error e =>
          (.error ("transfer " ++ a.symbol ++ " failed: " ++ e),
            [.transfer a.assetID a.balance receiver])
        | .ok _ => (.ok (), [.transfer a.assetID a.balance receiver])) nonzero

/-- Phase 2, `updateTipPin` (main.go lines 161-183): if the stored pin already
parses as a `mixinnet` key, succeed with no action at all; otherwise generate
a key, submit its public half via `ModifyPin` authorized by the old pin,
mutate the record's pin to the new private encoding and persist it, failing
with the save's own error if persistence fails. -/
def updateTipPin (env : Env) (key : KeystoreRec) :
    Except String KeystoreRec × List Event :=
  match env.parseKey key.pin with
  | some _ => (.ok key, [])
  | none =>
    let k := env.pinKey
    match env.modifyPin key.pin k.pub with
    | .error e =>
      (.error ("modify pin failed: " ++ e),
        [.generateKey k, .modifyPin key.pin k.pub])
    | .ok _ =>
      let key2 : KeystoreRec := { key with pin := k.priv }
      match env.save key2 with
      | .error e =>
        (.error e, [.generateKey k, .modifyPin key.pin k.pub, .save key2])
      | .ok _ =>
        (.ok key2, [.generateKey k, .modifyPin key.pin k.pub, .save key2])

/-- Phase 3, `migrateToSafe` (main.go lines 185-207): if the stored spend key
already parses, succeed with no action; otherwise generate a spend key, call
`SafeMigrate` with the new private encoding and the current pin, mutate the
record's spend key and persist it, failing with the save's own error if
persistence fails. -/
def migrateToSafe (env : Env) (key : KeystoreRec) :
    Except String KeystoreRec × List Event :=
  match env.parseKey key.spendKey with
  | some _ => (.ok key, [])
  | none =>
    let k := env.spendKeyGen
    match env.safeMigrate k.priv key.pin with
    | .error e =>
      (.error ("migrate safe failed: " ++ e),
        [.generateKey k, .safeMigrate k.priv key.pin])
    | .ok _ =>
      let key2 : KeystoreRec := { key with spendKey := k.priv }
      match env.save key2 with
      | .error e =>
        (.error e, [.generateKey k, .safeMigrate k.priv key.pin, .save key2])
      | .ok _ =>
        (.ok key2, [.generateKey k, .safeMigrate k.priv key.pin, .save key2])

/-- The per-spend-group pipeline (main.go lines 255-299): build a transaction
spending the group into the single output paying `sumUtxos(spends)` to the
receiver's one-signer mix address, dump it, create the transaction request
keyed by the builder hint, sign input index 0, dump again and submit under
the returned request id; every step aborts the phase on error. -/
def pipelineGroup (env : Env) (receiver : String) (spends : List SafeUtxo) :
    Except String Unit × List Event :=
  let outs : List TxOutput := [⟨[receiver], 1, sumUtxos spends⟩]
  match env.makeTransaction spends outs with
  | .error e =>
    (.error ("make safe transaction failed: " ++ e),
      [.makeTransaction spends outs])
  | .ok _ =>
    match env.dumpRaw spends with
    | .error e =>
      (.error ("dump transaction failed: " ++ e), [.makeTransaction spends outs])
    | .ok raw =>
      match env.createRequest (env.txHint spends) raw with
      | .error e =>
        (.error ("create transaction request failed: " ++ e),
          [.makeTransaction spends outs, .createRequest (env.txHint spends)])
      | .ok reqID =>
        match env.signTx spends with
        | .error e =>
          (.error ("sign transaction failed: " ++ e),
            [.makeTransaction spends outs, .createRequest (env.txHint spends)])
        | .ok _ =>
          match env.dumpSigned spends with
          | .error e =>
            (.error ("dump transaction failed: " ++ e),
              [.makeTransaction spends outs, .createRequest (env.txHint spends),
                .signTransaction 0])
          | .ok sraw =>
            match env.submit reqID sraw with
            | .error e =>
              (.error ("submit transaction request failed: " ++ e),
                [.makeTransaction spends outs, .createRequest (env.txHint spends),
                  .signTransaction 0, .submitRequest reqID])
            | .ok _ =>
              (.ok (),
                [.makeTransaction spends outs, .createRequest (env.txHint spends),
                  .signTransaction 0, .submitRequest reqID])

/-- The `assets[utxo.AssetID] = append(assets[utxo.AssetID], utxo)` map of
main.go lines 229-232, kept as an association list in first-appearance order
(Go's map iteration order is unspecified; the spec notes that the processing
order across assets is immaterial). -/
def insertUtxo (acc : List (String × List SafeUtxo)) (u : SafeUtxo) :
    List (String × List SafeUtxo) :=
  match acc with
  | [] => [(u.assetID, [u])]
  | (a, us) :: rest =>
    if a = u.assetID then (a, us ++ [u]) :: rest
    else (a, us) :: insertUtxo rest u

def groupByAsset (l : List SafeUtxo) : List (String × List SafeUtxo) :=
  l.foldl insertUtxo []

/-- Per-asset settlement (main.go lines 247-302): read the asset metadata,
then settle every consecutive spend group of the asset's UTXOs in order. -/
def settleAsset (env : Env) (receiver : String)
    (entry : String × List SafeUtxo) : Except String Unit × List Event :=
  match env.readSafeAsset entry.1 with
  | .error e =>
    (.error ("read safe asset " ++ entry.1 ++ " failed: " ++ e),
      [.readAsset entry.1])
  | .ok _ =>
    match runSeq (pipelineGroup env receiver)
        (chunkGroups env.spendGroupCount entry.2) with
    | (r, t) => (r, .readAsset entry.1 :: t)

/-- Phase 4, `migrateSafeAssets` (main.go lines 209-306): enumerate all
unspent outputs by pagination, group them by asset; if none, succeed; else
parse the stored spend key (failing with `invalid spend key` if it does not
parse) and settle every asset's spend groups. -/
def migrateSafeAssets (env : Env) (receiver : String) (key : KeystoreRec) :
    Except String Unit × List Event :=
  match collectLoop env.utxoPage env.enumFuel 0 with
  | (.error e, reqs, _) => (.error e, reqs.map Event.listUtxos)
  | (.ok visited, reqs, _) =>
    let evs := reqs.map Event.listUtxos
    match groupByAsset visited with
    | [] => (.ok (), evs)
    | g :: gs =>
      match env.parseKey key.spendKey with
      | none => (.error "invalid spend key", evs)
      | some _ =>
        match runSeq (settleAsset env receiver) (g :: gs) with
        | (r, t) => (r, evs ++ t)

/-- The orchestration of main.go lines 74-88: the four phases strictly in
order, each `log.Fatalln` wrapping the phase error with its context and
aborting the run. -/
def runPhases (env : Env) (receiver : String) (key : KeystoreRec) :
    Except String Unit × List Event :=
  match migrateLegacyAssets env receiver with
  | (.error e, t1) => (.error ("migrate legacy assets failed: " ++ e), t1)
  | (.ok _, t1) =>
    match updateTipPin env key with
    | (.error e, t2) => (.error ("update tip pin failed: " ++ e), t1 ++ t2)
    | (.ok key2, t2) =>
      match migrateToSafe env key2 with
      | (.error e, t3) => (.error ("migrate safe failed: " ++ e), t1 ++ t2 ++ t3)
      | (.ok key3, t3) =>
        match migrateSafeAssets env receiver key3 with
        | (.error e, t4) =>
          (.error ("migrate safe assets failed: " ++ e), t1 ++ t2 ++ t3 ++ t4)
        | (.ok _, t4) => (.ok (), t1 ++ t2 ++ t3 ++ t4)

/-- `main` (main.go lines 26-89): argument and group-limit validation, keystore
load, receiver lookup, the two receiver validations (`cast.ToInt64` of the
identity number equal to 0; receiver equal to the wallet's own client id),
the interactive confirmation, then the four phases. -/
def runMain (env : Env) (args : List String) : Except String Unit × List Event :=
  if args.isEmpty then (.error "receiver id is required", [])
  else if env.spendGroupCount = 0 ∨ 256 < env.spendGroupCount then
    (.error "invalid spend group count", [])
  else
    match env.loadKeystore with
    | .error e => (.error ("load keystore failed: " ++ e), [])
    | .ok key =>
      match env.fetchUser with
      | .error e => (.error ("read receiver info failed: " ++ e), [])
      | .ok user =>
        if env.toInt64 user.identityNumber = 0 then
          (.error "receiver is not a mixin messenger user", [])
        else if user.userID = key.clientID then
          (.error "receiver is self", [])
        else if !env.confirm then (.ok (), [])
        else runPhases env user.userID key

/-! ## Keystore file persistence (main.go lines 98-113, keystore.go 16-30)

`saveKeystore` opens the existing file with `os.O_WRONLY` only: no `O_CREATE`,
so the 0777 mode argument is never used and the file's permission bits stay
unchanged; no `O_TRUNC`, so the JSON encoding is written from offset 0 and any
old bytes past the end of the new encoding survive as a trailing suffix.
`loadKeystore` decodes one JSON value from the start of the file with
`json.Decoder.Decode`, which leaves all bytes after the first complete value
unread.  The Go `encoding/json` codec is modelled character-exactly for this
record: the encoder with `SetIndent` of two spaces and the encoder's default
HTML escaping, and a JSON parser for objects with string-valued fields
covering the escape forms the decoder accepts (the encoder under study never
emits surrogate pairs, so `u`-escapes decode directly to the scalar). -/

def hexDigit (n : Nat) : Char :=
  if n < 10 then Char.ofNat ('0'.toNat + n) else Char.ofNat ('a'.toNat + n - 10)

def hexVal (c : Char) : Option Nat :=
  if '0' ≤ c ∧ c ≤ '9' then some (c.toNat - '0'.toNat)
  else if 'a' ≤ c ∧ c ≤ 'f' then some (c.toNat - 'a'.toNat + 10)
  else if 'A' ≤ c ∧ c ≤ 'F' then some (c.toNat - 'A'.toNat + 10)
  else none

/-- Go `encoding/json` string escaping with the default HTML escaping: quote
and backslash, the three named control escapes, `u`-escapes for the remaining
control characters and for the HTML-sensitive characters, and the two line
separators U+2028 and U+2029. -/
def escapeChar (c : Char) : List Char :=
  if c = '"' then ['\\', '"']
  else if c = '\\' then ['\\', '\\']
  else if c = '\n' then ['\\', 'n']
  else if c = '\r' then ['\\', 'r']
  else if c = '\t' then ['\\', 't']
  else if c.toNat < 0x20 ∨ c = '<' ∨ c = '>' ∨ c = '&' then
    ['\\', 'u', '0', '0', hexDigit (c.toNat / 16), hexDigit (c.toNat % 16)]
  else if c.toNat = 0x2028 ∨ c.toNat = 0x2029 then
    ['\\', 'u', '2', '0', '2', hexDigit (c.toNat % 16)]
  else [c]

def escape (s : List Char) : List Char := (s.map escapeChar).flatten

def escDecode (e : Char) : Option Char :=
  if e = '"' then some '"'
  else if e = '\\' then some '\\'
  else if e = '/' then some '/'
  else if e = 'b' then some (Char.ofNat 8)
  else if e = 'f' then some (Char.ofNat 12)
  else if e = 'n' then some '\n'
  else if e = 'r' then some '\r'
  else if e = 't' then some '\t'
  else none

/-- One lexical element of a JSON string body: the closing quote, one decoded
character (plain, named escape, or `u`-escape), or a malformed input. -/
inductive StrTok
  | close (rest : List Char)
  | ch (c : Char) (rest : List Char)
  | bad
deriving DecidableEq

def strTok (l : List Char) : StrTok :=
  match l with
  | [] => .bad
  | c :: rest =>
    if c = '"' then .close rest
    else if c = '\\' then
      match rest with
      | [] => .bad
      | e :: rest2 =>
        if e = 'u' then
          match rest2 with
          | h1 :: h2 :: h3 :: h4 :: rest3 =>
            match hexVal h1, hexVal h2, hexVal h3, hexVal h4 with
            | some a, some b, some c2, some d =>
              .ch (Char.ofNat (((a * 16 + b) * 16 + c2) * 16 + d)) rest3
            | _, _, _, _ => .bad
          | _ => .bad
        else
          match escDecode e with
          | some d => .ch d rest2
          | none => .bad
    else .ch c rest

/-- Parser loop for the body of a JSON string, after the opening quote:
returns the decoded content and the input following the closing quote.
`fuel` bounds the character count; the input length always suffices since
every token consumes at least one character. -/
def parseJStringF : Nat → List Char → Option (List Char × List Char)
  | 0, _ => none
  | fuel + 1, l =>
    match strTok l with
    | .close rest => some ([], rest)
    | .ch c rest =>
      match parseJStringF fuel rest with
      | none => none
      | some (s, r) => some (c :: s, r)
    | .bad => none

def parseJString (l : List Char) : Option (List Char × List Char) :=
  parseJStringF l.length l

def skipWs : List Char → List Char
  | [] => []
  | c :: rest =>
    if c = ' ' ∨ c = '\n' ∨ c = '\r' ∨ c = '\t' then skipWs rest
    else c :: rest

/-- Parser for the members of a JSON object with string-valued fields, entered
just after the opening brace: a whitespace-tolerant loop of
quoted-name, colon, quoted-value, separated by commas and ended by the closing
brace; returns the member association list (names and raw decoded values) and
the input following the closing brace.  `fuel` bounds the member count; the
input length always suffices since every member consumes at least one
character. -/
def parseMembersF : Nat → List Char → Option (List (List Char × List Char) × List Char)
  | 0, _ => none
  | fuel + 1, l =>
    match skipWs l with
    | [] => none
    | c :: r1 =>
      if c = '"' then
        match parseJString r1 with
        | none => none
        | some (key, r2) =>
          match skipWs r2 with
          | [] => none
          | c2 :: r3 =>
            if c2 = ':' then
              match skipWs r3 with
              | [] => none
              | c3 :: r4 =>
                if c3 = '"' then
                  match parseJString r4 with
                  | none => none
                  | some (val, r5) =>
                    match skipWs r5 with
                    | [] => none
                    | c4 :: r6 =>
                      if c4 = ',' then
                        match parseMembersF fuel r6 with
                        | none => none
                        | some (ms, r7) => some ((key, val) :: ms, r7)
                      else if c4 = '\x7d' then some ([(key, val)], r6)
                      else none
                else none
            else none
      else none

/-- Decode one JSON object from the start of the input, as
`json.Decoder.Decode` does: skip whitespace, consume the object, and leave
everything after it unread. -/
def parseKeystoreObj (l : List Char) :
    Option (List (List Char × List Char) × List Char) :=
  match skipWs l with
  | [] => none
  | c :: r1 =>
    if c = '\x7b' then
      match skipWs r1 with
      | [] => none
      | c2 :: r2 => if c2 = '\x7d' then some ([], r2) else parseMembersF r1.length r1
    else none

/-- Decoding a member into the record, as Go does when filling the struct:
known field names set the matching field (later duplicates win), unknown
names are ignored. -/
def applyField (k : KeystoreRec) (name v : String) : KeystoreRec :=
  if name = "client_id" then { k with clientID := v }
  else if name = "session_id" then { k with sessionID := v }
  else if name = "private_key" then { k with privateKey := v }
  else if name = "pin_token" then { k with pinToken := v }
  else if name = "pin" then { k with pin := v }
  else if name = "spend_key" then { k with spendKey := v }
  else k

/-- The zero value the decoder starts from (`var key Keystore`). -/
def emptyRec : KeystoreRec := ⟨"", "", "", "", "", ""⟩

def decodeKeystore (l : List Char) : Option (KeystoreRec × List Char) :=
  match parseKeystoreObj l with
  | none => none
  | some (ms, r) =>
    some (ms.foldl (fun k m => applyField k (String.mk m.1) (String.mk m.2))
      emptyRec, r)

/-- One encoded member: newline, the two-space indent, the quoted name, a
colon and space, and the quoted escaped value. -/
def encMember (name : List Char) (v : String) : List Char :=
  '\n' :: ' ' :: ' ' :: '"' ::
    (name ++ '"' :: ':' :: ' ' :: '"' :: (escape v.data ++ ['"']))

def encMembers : List (List Char × String) → List Char
  | [] => []
  | [m] => encMember m.1 m.2
  | m :: ms => encMember m.1 m.2 ++ ',' :: encMembers ms

/-- The encoded members of the record, in struct order; `spend_key` carries
`omitempty` and is dropped when empty. -/
def keystoreFields (k : KeystoreRec) : List (List Char × String) :=
  [("client_id".data, k.clientID), ("session_id".data, k.sessionID),
    ("private_key".data, k.privateKey), ("pin_token".data, k.pinToken),
    ("pin".data, k.pin)]
  ++ (if k.spendKey = "" then [] else [("spend_key".data, k.spendKey)])

/-- The file contents `enc.Encode(r.key)` produces: the indented object
followed by the encoder's newline. -/
def encodeKeystore (k : KeystoreRec) : List Char :=
  '\x7b' :: (encMembers (keystoreFields k) ++ '\n' :: '\x7d' :: ['\n'])

/-- A file: its permission bits and its contents. -/
structure FileState where
  perm : Nat
  contents : List Char

/-- `saveKeystore`: open with `os.O_WRONLY` (the permission bits stay as they
are since nothing is created) and write the encoding from offset 0, keeping
whatever old bytes extend past it (no `O_TRUNC`). -/
def saveKeystoreFile (k : KeystoreRec) (f : FileState) : FileState :=
  { perm := f.perm
    contents := encodeKeystore k ++ f.contents.drop (encodeKeystore k).length }

/-- `loadKeystore`: decode one JSON value from the start of the file. -/
def loadKeystoreFile (f : FileState) : Option KeystoreRec :=
  match decodeKeystore f.contents with
  | none => none
  | some (k, _) => some k

/-! ## Concrete environments used by the witnesses -/

/-- A keystore record whose pin and spend key both already parse. -/
def demoRec : KeystoreRec :=
  ⟨"client", "session", "pkey", "ptoken", "priv", "spriv"⟩

/-- A keystore record before any rotation: neither secret parses. -/
def legacyRec : KeystoreRec :=
  ⟨"client", "session", "pkey", "ptoken", "123456", ""⟩

/-- A concrete environment in which every external call succeeds; its key
codec parses exactly the encodings "priv" and "spriv". -/
def baseEnv : Env where
  parseKey := fun s =>
    if s = "priv" then some ⟨"priv", "pub"⟩
    else if s = "spriv" then some ⟨"spriv", "spub"⟩
    else none
  pinKey := ⟨"priv", "pub"⟩
  spendKeyGen := ⟨"spriv", "spub"⟩
  loadKeystore := .ok demoRec
  readAssets := .ok [⟨"assetA", 0, "A"⟩, ⟨"assetB", 12.5, "B"⟩]
  transfer := fun _ _ _ => .ok ()
  modifyPin := fun _ _ => .ok ()
  safeMigrate := fun _ _ => .ok ()
  save := fun _ => .ok ()
  utxoPage := fun off => pageOf demoLedger 500 off
  enumFuel := 3
  readSafeAsset := fun _ => .ok "SYM"
  makeTransaction := fun _ _ => .ok ()
  dumpRaw := fun _ => .ok "raw"
  createRequest := fun rid _ => .ok rid
  signTx := fun _ => .ok ()
  dumpSigned := fun _ => .ok "signed"
  submit := fun _ _ => .ok ()
  txHint := fun _ => "hint"
  fetchUser := .ok ⟨"user", "7000", "Demo"⟩
  toInt64 := fun s => if s = "7000" then 7000 else 0
  confirm := true
  spendGroupCount := 256

/-- `baseEnv` with a negative legacy balance in the listing. -/
def negEnv : Env :=
  { baseEnv with readAssets := .ok [⟨"assetA", 0, "A"⟩, ⟨"assetB", -1, "B"⟩] }

/-- `baseEnv` with the legacy asset listing failing. -/
def listFailEnv : Env := { baseEnv with readAssets := .error "boom" }

/-- `baseEnv` whose looked-up receiver has a non-numeric identity number. -/
def zeroIdEnv : Env := { baseEnv with fetchUser := .ok ⟨"user", "abc", "Demo"⟩ }

/-- `baseEnv` over a one-output ledger, with just enough enumeration fuel. -/
def miniEnv : Env :=
  { baseEnv with
      utxoPage := fun off => pageOf [⟨"a", 1, 0⟩] 500 off
      enumFuel := 2 }

/-! ## Theorems -/

theorem chunkGroupsAux_congr (L : Nat) :
    ∀ (fuel fuel' : Nat) (l : List α), l.length ≤ fuel → l.length ≤ fuel' →
      chunkGroupsAux L fuel l = chunkGroupsAux L fuel' l := by
  intro fuel
  induction fuel with
  | zero =>
    intro fuel' l h h'
    have hnil : l = [] := List.length_eq_zero.mp (by omega)
    subst hnil
    cases fuel' <;> rfl
  | succ fuel ih =>
    intro fuel' l h h'
    cases l with
    | nil => cases fuel' <;> rfl
    | cons x xs =>
      cases fuel' with
      | zero => simp at h'
      | succ fuel2 =>
        simp only [chunkGroupsAux]
        by_cases hL : L = 0
        · simp [hL]
        · simp only [hL, if_neg, ite_false, if_false]
          congr 1
          apply ih
          · simp only [List.length_drop, List.length_cons] at h ⊢
            omega
          · simp only [List.length_drop, List.length_cons] at h' ⊢
            omega

theorem chunkGroups_nil (L : Nat) : chunkGroups L ([] : List α) = [] := rfl

theorem chunkGroups_cons (L : Nat) (hL : L ≠ 0) (l : List α) (hl : l ≠ []) :
    chunkGroups L l = l.take L :: chunkGroups L (l.drop L) := by
  match l, hl with
  | x :: xs, _ =>
    show chunkGroupsAux L (x :: xs).length (x :: xs) = _
    rw [List.length_cons]
    simp only [chunkGroupsAux, hL, if_neg, ite_false, if_false]
    congr 1
    exact chunkGroupsAux_congr L xs.length ((x :: xs).drop L).length
      ((x :: xs).drop L)
      (by simp only [List.length_drop, List.length_cons]; omega) le_rfl

theorem ceilDiv_zero (p : Nat) : ceilDiv 0 p = 0 := by
  unfold ceilDiv
  rcases Nat.eq_zero_or_pos p with h | h
  · simp [h]
  · exact Nat.div_eq_of_lt (by omega)

theorem ceilDiv_sub_add_one (n p : Nat) (hp : 1 ≤ p) (hn : 1 ≤ n) :
    ceilDiv (n - p) p + 1 = ceilDiv n p := by
  unfold ceilDiv
  rcases le_or_lt n p with h | h
  · have h0 : n - p = 0 := by omega
    rw [h0]
    have h1 : (0 + p - 1) / p = 0 := Nat.div_eq_of_lt (by omega)
    have h2 : n + p - 1 = (n - 1) + p := by omega
    have h3 : (n - 1) / p = 0 := Nat.div_eq_of_lt (by omega)
    rw [h1, h2, Nat.add_div_right _ (by omega), h3]
  · have h2 : n - p + p - 1 = (n - p - 1) + p := by omega
    have h3 : n + p - 1 = ((n - p - 1) + p) + p := by omega
    have e1 : ((n - p - 1) + p) / p = (n - p - 1) / p + 1 :=
      Nat.add_div_right _ (by omega)
    have e2 : (((n - p - 1) + p) + p) / p = ((n - p - 1) + p) / p + 1 :=
      Nat.add_div_right _ (by omega)
    rw [h2, h3, e2, e1]

theorem chunkGroups_length (L : Nat) (hL : L ≠ 0) :
    ∀ (n : Nat) (l : List α), l.length ≤ n →
      (chunkGroups L l).length = ceilDiv l.length L := by
  intro n
  induction n with
  | zero =>
    intro l hl
    have : l = [] := List.length_eq_zero.mp (by omega)
    subst this
    simp [chunkGroups_nil, ceilDiv_zero]
  | succ n ih =>
    intro l hl
    rcases eq_or_ne l [] with rfl | hne
    · simp [chunkGroups_nil, ceilDiv_zero]
    · rw [chunkGroups_cons L hL l hne]
      have hpos : 0 < l.length := List.length_pos.mpr hne
      have hdrop : (l.drop L).length = l.length - L := List.length_drop L l
      have := ih (l.drop L) (by omega)
      simp only [List.length_cons, this, hdrop]
      exact ceilDiv_sub_add_one l.length L (by omega) (by omega)

theorem chunkGroups_flatten (L : Nat) (hL : L ≠ 0) :
    ∀ (n : Nat) (l : List α), l.length ≤ n → (chunkGroups L l).flatten = l := by
  intro n
  induction n with
  | zero =>
    intro l hl
    have : l = [] := List.length_eq_zero.mp (by omega)
    subst this
    simp [chunkGroups_nil]
  | succ n ih =>
    intro l hl
    rcases eq_or_ne l [] with rfl | hne
    · simp [chunkGroups_nil]
    · rw [chunkGroups_cons L hL l hne]
      have hpos : 0 < l.length := List.length_pos.mpr hne
      have hdrop : (l.drop L).length = l.length - L := List.length_drop L l
      have := ih (l.drop L) (by omega)
      simp only [List.flatten_cons, this]
      exact List.take_append_drop L l

theorem chunkGroups_mem (L : Nat) (hL : L ≠ 0) :
    ∀ (n : Nat) (l : List α), l.length ≤ n →
      ∀ g ∈ chunkGroups L l, g ≠ [] ∧ g.length ≤ L := by
  intro n
  induction n with
  | zero =>
    intro l hl
    have : l = [] := List.length_eq_zero.mp (by omega)
    subst this
    simp [chunkGroups_nil]
  | succ n ih =>
    intro l hl
    rcases eq_or_ne l [] with rfl | hne
    · simp [chunkGroups_nil]
    · rw [chunkGroups_cons L hL l hne]
      intro g hg
      rcases List.mem_cons.mp hg with rfl | hg2
      · constructor
        · simp only [ne_eq, List.take_eq_nil_iff]
          push_neg
          exact ⟨hL, hne⟩
        · simp [List.length_take]
      · have hpos : 0 < l.length := List.length_pos.mpr hne
        have hdrop : (l.drop L).length = l.length - L := List.length_drop L l
        exact ih (l.drop L) (by omega) g hg2

theorem chunkGroups_getElem (L : Nat) (hL : L ≠ 0) :
    ∀ (n : Nat) (l : List α), l.length ≤ n →
      ∀ i, i < (chunkGroups L l).length →
        (chunkGroups L l)[i]? = some ((l.drop (i * L)).take L) := by
  intro n
  induction n with
  | zero =>
    intro l hl
    have : l = [] := List.length_eq_zero.mp (by omega)
    subst this
    simp [chunkGroups_nil]
  | succ n ih =>
    intro l hl
    rcases eq_or_ne l [] with rfl | hne
    · simp [chunkGroups_nil]
    · intro i hi
      rw [chunkGroups_cons L hL l hne] at hi ⊢
      have hpos : 0 < l.length := List.length_pos.mpr hne
      have hdrop : (l.drop L).length = l.length - L := List.length_drop L l
      match i with
      | 0 => simp
      | i + 1 =>
        have h2 : i < (chunkGroups L (l.drop L)).length := by
          simpa using Nat.lt_of_succ_lt_succ hi
        have := ih (l.drop L) (by omega) i h2
        simp only [List.getElem?_cons_succ, this, List.drop_drop]
        congr 2
        ring_nf

/-- C1: batching one asset's ordered sequence of `N` UTXOs with a configured
group limit `L ∈ [1,256]` produces exactly `⌈N/L⌉` spend groups (none when
`N = 0`), every group is non-empty of size at most `L`, the `i`-th group is the
`i`-th consecutive `L`-slice (so the final group holds the remainder), and the
concatenation of the groups in order is exactly the original sequence. -/
theorem spend_group_batching (L : Nat) (hL1 : 1 ≤ L) (hL2 : L ≤ 256)
    (l : List SafeUtxo) :
    (chunkGroups L l).length = ceilDiv l.length L
    ∧ (l = [] → chunkGroups L l = [])
    ∧ (∀ g ∈ chunkGroups L l, g ≠ [] ∧ g.length ≤ L)
    ∧ (chunkGroups L l).flatten = l
    ∧ (∀ i, i < (chunkGroups L l).length →
        (chunkGroups L l)[i]? = some ((l.drop (i * L)).take L)) := by
  have hL : L ≠ 0 := by omega
  exact ⟨chunkGroups_length L hL l.length l le_rfl,
    fun h => by subst h; exact chunkGroups_nil L,
    chunkGroups_mem L hL l.length l le_rfl,
    chunkGroups_flatten L hL l.length l le_rfl,
    chunkGroups_getElem L hL l.length l le_rfl⟩

theorem spend_group_batching_witness :
    (chunkGroups 2 demoUtxos).length = ceilDiv demoUtxos.length 2
    ∧ (demoUtxos = [] → chunkGroups 2 demoUtxos = [])
    ∧ (∀ g ∈ chunkGroups 2 demoUtxos, g ≠ [] ∧ g.length ≤ 2)
    ∧ (chunkGroups 2 demoUtxos).flatten = demoUtxos
    ∧ (∀ i, i < (chunkGroups 2 demoUtxos).length →
        (chunkGroups 2 demoUtxos)[i]? = some ((demoUtxos.drop (i * 2)).take 2)) :=
  spend_group_batching 2 (by decide) (by decide) demoUtxos

theorem foldl_seq_last :
    ∀ (l : List SafeUtxo) (h : l ≠ []) (init : Nat),
      l.foldl (fun _ x => x.sequence + 1) init = (l.getLast h).sequence + 1 := by
  intro l
  induction l with
  | nil => intro h; exact absurd rfl h
  | cons u t ih =>
    intro h init
    cases t with
    | nil => rfl
    | cons v t2 =>
      rw [List.foldl_cons, List.getLast_cons (by simp)]
      exact ih (by simp) _

theorem mem_le_getLast :
    ∀ (l : List SafeUtxo),
      l.Pairwise (fun a b => a.sequence < b.sequence) →
      ∀ (h : l ≠ []) (x : SafeUtxo), x ∈ l →
        x.sequence ≤ (l.getLast h).sequence := by
  intro l
  induction l with
  | nil => intro _ h; exact absurd rfl h
  | cons u t ih =>
    intro hp h x hx
    cases t with
    | nil =>
      rcases List.mem_singleton.mp hx with rfl
      rfl
    | cons v t2 =>
      rw [List.getLast_cons (by simp)]
      rcases List.mem_cons.mp hx with rfl | hx2
      · have hlt := (List.pairwise_cons.mp hp).1
        have hmem : (v :: t2).getLast (by simp) ∈ v :: t2 := List.getLast_mem _
        exact le_of_lt (hlt _ hmem)
      · exact ih (List.pairwise_cons.mp hp).2 (by simp) x hx2

theorem collectLoop_pageOf (P : Nat) (hP : 1 ≤ P) :
    ∀ (fuel : Nat) (pre rem : List SafeUtxo) (offset : Nat),
      (pre ++ rem).Pairwise (fun a b => a.sequence < b.sequence) →
      (∀ x ∈ pre, x.sequence < offset) →
      (∀ x ∈ rem, offset ≤ x.sequence) →
      ceilDiv rem.length P + 1 ≤ fuel →
      ∃ reqs,
        collectLoop (pageOf (pre ++ rem) P) fuel offset = (.ok rem, reqs, true)
        ∧ reqs.length = ceilDiv rem.length P + 1 := by
  intro fuel
  induction fuel with
  | zero => intro pre rem offset _ _ _ hf; omega
  | succ fuel ih =>
    intro pre rem offset hsort hpre hrem hf
    have hfilter :
        (pre ++ rem).filter (fun u => decide (offset ≤ u.sequence)) = rem := by
      rw [List.filter_append]
      have h1 : pre.filter (fun u => decide (offset ≤ u.sequence)) = [] := by
        rw [List.filter_eq_nil_iff]
        intro x hx
        simpa using Nat.not_le.mpr (hpre x hx)
      have h2 : rem.filter (fun u => decide (offset ≤ u.sequence)) = rem := by
        rw [List.filter_eq_self]
        intro x hx
        simpa using hrem x hx
      rw [h1, h2, List.nil_append]
    have hpage : pageOf (pre ++ rem) P offset = .ok (rem.take P) := by
      rw [pageOf, hfilter]
    cases rem with
    | nil =>
      refine ⟨[offset], ?_, by simp [ceilDiv_zero]⟩
      rw [collectLoop, hpage, List.take_nil]
    | cons r rs =>
      have hrem_sorted : (r :: rs).Pairwise (fun a b => a.sequence < b.sequence) :=
        (List.pairwise_append.mp hsort).2.1
      have hcons : (r :: rs).take P = r :: rs.take (P - 1) := by
        cases P with
        | zero => omega
        | succ n => simp [List.take_succ_cons]
      have htake_ne : (r :: rs).take P ≠ [] := by
        rw [hcons]; simp
      have hsplit : (r :: rs).take P ++ (r :: rs).drop P = r :: rs :=
        List.take_append_drop P (r :: rs)
      have htake_sorted :
          ((r :: rs).take P).Pairwise (fun a b => a.sequence < b.sequence) :=
        hrem_sorted.sublist (List.take_sublist P (r :: rs))
      have hcross :
          ∀ y ∈ (r :: rs).take P, ∀ x ∈ (r :: rs).drop P,
            y.sequence < x.sequence := by
        have := hsplit ▸ hrem_sorted
        exact fun y hy x hx => (List.pairwise_append.mp this).2.2 y hy x hx
      have hlast_mem : ((r :: rs).take P).getLast htake_ne ∈ (r :: rs).take P :=
        List.getLast_mem htake_ne
      have hlast_mem_rem : ((r :: rs).take P).getLast htake_ne ∈ r :: rs :=
        List.mem_of_mem_take hlast_mem
      have hr_mem_take : r ∈ (r :: rs).take P := by
        rw [hcons]; exact List.mem_cons_self _ _
      -- hypotheses for the recursive call
      have hpre2 : ∀ x ∈ pre ++ (r :: rs).take P,
          x.sequence < (((r :: rs).take P).getLast htake_ne).sequence + 1 := by
        intro x hx
        rcases List.mem_append.mp hx with hx1 | hx2
        · have h1 : x.sequence < offset := hpre x hx1
          have h2 : offset ≤ r.sequence := hrem r (List.mem_cons_self _ _)
          have h3 := mem_le_getLast _ htake_sorted htake_ne r hr_mem_take
          omega
        · have := mem_le_getLast _ htake_sorted htake_ne x hx2
          omega
      have hrem2 : ∀ x ∈ (r :: rs).drop P,
          (((r :: rs).take P).getLast htake_ne).sequence + 1 ≤ x.sequence := by
        intro x hx
        have := hcross _ hlast_mem x hx
        omega
      have hsort2 :
          ((pre ++ (r :: rs).take P) ++ (r :: rs).drop P).Pairwise
            (fun a b => a.sequence < b.sequence) := by
        rw [List.append_assoc, hsplit]
        exact hsort
      have hlen_drop : ((r :: rs).drop P).length = (r :: rs).length - P := by
        simp [List.length_drop]
      have hceil : ceilDiv ((r :: rs).drop P).length P + 1
          = ceilDiv (r :: rs).length P := by
        rw [hlen_drop]
        exact ceilDiv_sub_add_one _ P hP (by simp)
      have hf2 : ceilDiv ((r :: rs).drop P).length P + 1 ≤ fuel := by omega
      obtain ⟨reqs, hrec, hreqlen⟩ :=
        ih (pre ++ (r :: rs).take P) ((r :: rs).drop P)
          ((((r :: rs).take P).getLast htake_ne).sequence + 1)
          hsort2 hpre2 hrem2 hf2
      rw [List.append_assoc, hsplit] at hrec
      -- unfold one iteration of the loop
      have hfold : ((r :: rs).take P).foldl (fun _ x => x.sequence + 1) offset
          = (((r :: rs).take P).getLast htake_ne).sequence + 1 :=
        foldl_seq_last _ htake_ne offset
      set S : Nat := (((r :: rs).take P).getLast htake_ne).sequence with hS
      refine ⟨offset :: reqs, ?_, ?_⟩
      · rw [collectLoop, hpage, hcons]
        rw [hcons] at hfold hsplit
        simp only [hfold, hrec, List.cons_append] at hsplit ⊢
        rw [hsplit]
      · rw [List.length_cons, hreqlen, hceil]

/-- C2 counterexample: with a ledger holding exactly `M = 1` unspent output and
page size `P = 500` (the program's page size), the loop terminates but makes 2
page requests (offsets 0 then 1, the second returning empty), not
`⌈M/P⌉ = 1` as the claim states. -/
theorem pagination_request_count_counterexample :
    collectLoop (pageOf [⟨"asset", 1, 0⟩] 500) 2 0
      = (.ok [⟨"asset", 1, 0⟩], [0, 1], true)
    ∧ ceilDiv 1 500 = 1
    ∧ ([0, 1] : List Nat).length ≠ 1 :=
  ⟨rfl, rfl, by decide⟩

/-- C2 (amended): for a ledger of `M` unspent outputs with strictly increasing
sequence numbers and page size `P ≥ 1`, the enumeration loop terminates after
exactly `⌈M/P⌉ + 1` page requests — the final request returning the empty page
that stops the loop, hence exactly 1 request when `M = 0` — and visits every
unspent output exactly once and in order: the collected list is exactly the
ledger, none skipped and none double-counted, for every relation of `P`
to `M`. -/
theorem pagination_enumeration (ledger : List SafeUtxo) (P fuel : Nat)
    (hP : 1 ≤ P)
    (hsort : ledger.Pairwise (fun a b => a.sequence < b.sequence))
    (hfuel : ceilDiv ledger.length P + 1 ≤ fuel) :
    ∃ reqs, collectLoop (pageOf ledger P) fuel 0 = (.ok ledger, reqs, true)
      ∧ reqs.length = ceilDiv ledger.length P + 1 := by
  have h := collectLoop_pageOf P hP fuel [] ledger 0
    (by simpa using hsort) (by simp) (by simp) hfuel
  simpa using h

theorem pagination_enumeration_witness :
    ∃ reqs, collectLoop (pageOf demoLedger 1) 3 0 = (.ok demoLedger, reqs, true)
      ∧ reqs.length = ceilDiv demoLedger.length 1 + 1 :=
  pagination_enumeration demoLedger 1 3 (by decide) (by decide) (by decide)

/-! ### Phase-level helper lemmas -/

theorem runSeq_ok_map (f : α → Except String Unit × List Event)
    (ev : α → Event) (l : List α)
    (h : ∀ a ∈ l, f a = (.ok (), [ev a])) :
    runSeq f l = (.ok (), l.map ev) := by
  induction l with
  | nil => rfl
  | cons x xs ih =>
    rw [runSeq, h x (List.mem_cons_self _ _),
      ih (fun a ha => h a (List.mem_cons_of_mem _ ha))]
    rfl

theorem runPhases_legacy_err (env : Env) (receiver : String) (key : KeystoreRec)
    (e : String) (t1 : List Event)
    (h : migrateLegacyAssets env receiver = (.error e, t1)) :
    runPhases env receiver key
      = (.error ("migrate legacy assets failed: " ++ e), t1) := by
  simp only [runPhases, h]

theorem runPhases_pin_err (env : Env) (receiver : String) (key : KeystoreRec)
    (t1 : List Event) (e : String) (t2 : List Event)
    (h1 : migrateLegacyAssets env receiver = (.ok (), t1))
    (h2 : updateTipPin env key = (.error e, t2)) :
    runPhases env receiver key
      = (.error ("update tip pin failed: " ++ e), t1 ++ t2) := by
  simp only [runPhases, h1, h2]

theorem runPhases_safe_err (env : Env) (receiver : String) (key : KeystoreRec)
    (t1 : List Event) (key2 : KeystoreRec) (t2 : List Event)
    (e : String) (t3 : List Event)
    (h1 : migrateLegacyAssets env receiver = (.ok (), t1))
    (h2 : updateTipPin env key = (.ok key2, t2))
    (h3 : migrateToSafe env key2 = (.error e, t3)) :
    runPhases env receiver key
      = (.error ("migrate safe failed: " ++ e), t1 ++ t2 ++ t3) := by
  simp only [runPhases, h1, h2, h3]

theorem runPhases_assets_err (env : Env) (receiver : String) (key : KeystoreRec)
    (t1 : List Event) (key2 : KeystoreRec) (t2 : List Event)
    (key3 : KeystoreRec) (t3 : List Event) (e : String) (t4 : List Event)
    (h1 : migrateLegacyAssets env receiver = (.ok (), t1))
    (h2 : updateTipPin env key = (.ok key2, t2))
    (h3 : migrateToSafe env key2 = (.ok key3, t3))
    (h4 : migrateSafeAssets env receiver key3 = (.error e, t4)) :
    runPhases env receiver key
      = (.error ("migrate safe assets failed: " ++ e), t1 ++ t2 ++ t3 ++ t4) := by
  simp only [runPhases, h1, h2, h3, h4]

theorem runPhases_all_ok (env : Env) (receiver : String) (key : KeystoreRec)
    (t1 : List Event) (key2 : KeystoreRec) (t2 : List Event)
    (key3 : KeystoreRec) (t3 : List Event) (t4 : List Event)
    (h1 : migrateLegacyAssets env receiver = (.ok (), t1))
    (h2 : updateTipPin env key = (.ok key2, t2))
    (h3 : migrateToSafe env key2 = (.ok key3, t3))
    (h4 : migrateSafeAssets env receiver key3 = (.ok (), t4)) :
    runPhases env receiver key = (.ok (), t1 ++ t2 ++ t3 ++ t4) := by
  simp only [runPhases, h1, h2, h3, h4]

/-- C4: a phase whose stored secret already parses as a private key (the pin
for the rotation phase, the spend key for the safe-activation phase) returns
success as a pure no-op: the record is returned unchanged and the trace is
empty — no keypair is generated, no ledger call is made, the record is not
mutated and nothing is persisted. -/
theorem rotation_idempotent (env : Env) (key : KeystoreRec) :
    (∀ k, env.parseKey key.pin = some k →
      updateTipPin env key = (.ok key, []))
    ∧ (∀ k, env.parseKey key.spendKey = some k →
        migrateToSafe env key = (.ok key, [])) := by
  constructor
  · intro k hk
    simp only [updateTipPin, hk]
  · intro k hk
    simp only [migrateToSafe, hk]

theorem rotation_idempotent_witness :
    updateTipPin baseEnv demoRec = (.ok demoRec, [])
    ∧ migrateToSafe baseEnv demoRec = (.ok demoRec, []) :=
  ⟨(rotation_idempotent baseEnv demoRec).1 ⟨"priv", "pub"⟩ (by decide),
   (rotation_idempotent baseEnv demoRec).2 ⟨"spriv", "spub"⟩ (by decide)⟩

/-- C5: when a phase's key-rotation ledger call succeeds, the phase's trace is
exactly generate-key, ledger call, then the save of the mutated record — the
new secret is persisted right after the in-memory mutation and before the
phase returns; the phase succeeds exactly when the save does, returning the
mutated record; if the save fails the phase fails with the save's own error;
and a failed rotation or activation phase stops the orchestrator with that
phase's context, no later phase contributing any event. -/
theorem rotation_persisted_before_return (env : Env) (receiver : String)
    (key : KeystoreRec) :
    (env.parseKey key.pin = none →
      env.modifyPin key.pin env.pinKey.pub = .ok () →
      ((updateTipPin env key).2
          = [.generateKey env.pinKey, .modifyPin key.pin env.pinKey.pub,
              .save { key with pin := env.pinKey.priv }]
        ∧ (env.save { key with pin := env.pinKey.priv } = .ok () →
            (updateTipPin env key).1 = .ok { key with pin := env.pinKey.priv })
        ∧ (∀ e, env.save { key with pin := env.pinKey.priv } = .error e →
            (updateTipPin env key).1 = .error e)))
    ∧ (env.parseKey key.spendKey = none →
        env.safeMigrate env.spendKeyGen.priv key.pin = .ok () →
        ((migrateToSafe env key).2
            = [.generateKey env.spendKeyGen,
                .safeMigrate env.spendKeyGen.priv key.pin,
                .save { key with spendKey := env.spendKeyGen.priv }]
          ∧ (env.save { key with spendKey := env.spendKeyGen.priv } = .ok () →
              (migrateToSafe env key).1
                = .ok { key with spendKey := env.spendKeyGen.priv })
          ∧ (∀ e,
              env.save { key with spendKey := env.spendKeyGen.priv } = .error e →
              (migrateToSafe env key).1 = .error e)))
    ∧ (∀ e t1 t2, migrateLegacyAssets env receiver = (.ok (), t1) →
        updateTipPin env key = (.error e, t2) →
        runPhases env receiver key
          = (.error ("update tip pin failed: " ++ e), t1 ++ t2))
    ∧ (∀ key2 e t1 t2 t3, migrateLegacyAssets env receiver = (.ok (), t1) →
        updateTipPin env key = (.ok key2, t2) →
        migrateToSafe env key2 = (.error e, t3) →
        runPhases env receiver key
          = (.error ("migrate safe failed: " ++ e), t1 ++ t2 ++ t3)) := by
  refine ⟨?_, ?_, ?_, ?_⟩
  · intro hpin hmod
    refine ⟨?_, ?_, ?_⟩
    · cases hs : env.save { key with pin := env.pinKey.priv } with
      | error e => simp [updateTipPin, hpin, hmod, hs]
      | ok u => simp [updateTipPin, hpin, hmod, hs]
    · intro hok
      simp [updateTipPin, hpin, hmod, hok]
    · intro e he
      simp [updateTipPin, hpin, hmod, he]
  · intro hsk hmig
    refine ⟨?_, ?_, ?_⟩
    · cases hs : env.save { key with spendKey := env.spendKeyGen.priv } with
      | error e => simp [migrateToSafe, hsk, hmig, hs]
      | ok u => simp [migrateToSafe, hsk, hmig, hs]
    · intro hok
      simp [migrateToSafe, hsk, hmig, hok]
    · intro e he
      simp [migrateToSafe, hsk, hmig, he]
  · intro e t1 t2 h1 h2
    exact runPhases_pin_err env receiver key t1 e t2 h1 h2
  · intro key2 e t1 t2 t3 h1 h2 h3
    exact runPhases_safe_err env receiver key t1 key2 t2 e t3 h1 h2 h3

theorem rotation_persisted_before_return_witness :
    (updateTipPin baseEnv legacyRec).2
      = [.generateKey baseEnv.pinKey,
          .modifyPin legacyRec.pin baseEnv.pinKey.pub,
          .save { legacyRec with pin := baseEnv.pinKey.priv }]
    ∧ (updateTipPin baseEnv legacyRec).1
        = .ok { legacyRec with pin := baseEnv.pinKey.priv } :=
  have h := (rotation_persisted_before_return baseEnv "recv" legacyRec).1
    (by decide) (by decide)
  ⟨h.1, h.2.1 (by decide)⟩

/-- C7 counterexample: with legacy balances [(assetA, 0), (assetB, −1)] and
every transfer accepted, the phase performs exactly one transfer — of the
negative balance of assetB — although the claim says exactly the assets with
strictly positive balance (here: none) are transferred. -/
theorem legacy_drain_counterexample :
    (migrateLegacyAssets negEnv "recv").2
      = [.transfer "assetB" (-1) "recv"]
    ∧ ¬ (0 < (-1 : Decimal)) :=
  ⟨by decide, by decide⟩

/-- C7 (amended): the legacy-drain phase never transfers an asset whose
balance is zero and, when listing and transfers succeed, transfers exactly
the assets with nonzero balance — not only the strictly positive ones —
each exactly once per run, each for its full balance, in listing order. -/
theorem legacy_drain (env : Env) (receiver : String)
    (assets : List LegacyAsset) (h : env.readAssets = .ok assets)
    (hok : ∀ a ∈ assets, env.transfer a.assetID a.balance receiver = .ok ()) :
    (migrateLegacyAssets env receiver).1 = .ok ()
    ∧ (migrateLegacyAssets env receiver).2
        = (assets.filter (fun a => decide (a.balance ≠ 0))).map
            (fun a => .transfer a.assetID a.balance receiver)
    ∧ (∀ a ∈ assets, a.balance = 0 →
        Event.transfer a.assetID a.balance receiver
          ∉ (migrateLegacyAssets env receiver).2) := by
  have hfull : migrateLegacyAssets env receiver
      = (.ok (), (assets.filter (fun a => decide (a.balance ≠ 0))).map
          (fun a => .transfer a.assetID a.balance receiver)) := by
    rw [migrateLegacyAssets, h]
    by_cases hemp : (assets.filter (fun a => decide (a.balance ≠ 0))).isEmpty
    · simp only [hemp, if_pos]
      rw [List.isEmpty_iff] at hemp
      rw [hemp]
      rfl
    · simp only [hemp, if_neg, Bool.false_eq_true, not_false_eq_true]
      apply runSeq_ok_map
      intro a ha
      rw [hok a (List.mem_of_mem_filter ha)]
  refine ⟨by rw [hfull], by rw [hfull], ?_⟩
  intro a ha h0 hmem
  rw [hfull] at hmem
  simp only at hmem
  obtain ⟨b, hb, heq⟩ := List.mem_map.mp hmem
  have hbne := List.of_mem_filter hb
  simp only [decide_eq_true_eq] at hbne
  injection heq with hA hB hC
  exact hbne (hB.trans h0)

theorem legacy_drain_witness :
    (migrateLegacyAssets baseEnv "recv").1 = .ok ()
    ∧ (migrateLegacyAssets baseEnv "recv").2
        = [.transfer "assetB" (12.5 : Decimal) "recv"] :=
  have h125 : (12.5 : Decimal) ≠ 0 := by norm_num
  have h := legacy_drain baseEnv "recv"
    [⟨"assetA", 0, "A"⟩, ⟨"assetB", 12.5, "B"⟩] rfl
    (fun a ha => rfl)
  ⟨h.1, h.2.1.trans (by simp [h125])⟩

/-- C8: the four phases run strictly in the order legacy-drain, pin rotation,
safe activation, safe-UTXO drain; a phase runs only when every earlier phase
succeeded; the first failure aborts the run with the failing phase's distinct
context prefixed to its error and with no event from any later phase (no
rollback, no in-process retry); when all phases succeed the run's trace is
their traces concatenated in phase order. -/
theorem phase_order_fail_fast (env : Env) (receiver : String)
    (key : KeystoreRec) :
    (∀ e t1, migrateLegacyAssets env receiver = (.error e, t1) →
      runPhases env receiver key
        = (.error ("migrate legacy assets failed: " ++ e), t1))
    ∧ (∀ t1 e t2, migrateLegacyAssets env receiver = (.ok (), t1) →
        updateTipPin env key = (.error e, t2) →
        runPhases env receiver key
          = (.error ("update tip pin failed: " ++ e), t1 ++ t2))
    ∧ (∀ t1 key2 t2 e t3, migrateLegacyAssets env receiver = (.ok (), t1) →
        updateTipPin env key = (.ok key2, t2) →
        migrateToSafe env key2 = (.error e, t3) →
        runPhases env receiver key
          = (.error ("migrate safe failed: " ++ e), t1 ++ t2 ++ t3))
    ∧ (∀ t1 key2 t2 key3 t3 e t4,
        migrateLegacyAssets env receiver = (.ok (), t1) →
        updateTipPin env key = (.ok key2, t2) →
        migrateToSafe env key2 = (.ok key3, t3) →
        migrateSafeAssets env receiver key3 = (.error e, t4) →
        runPhases env receiver key
          = (.error ("migrate safe assets failed: " ++ e), t1 ++ t2 ++ t3 ++ t4))
    ∧ (∀ t1 key2 t2 key3 t3 t4,
        migrateLegacyAssets env receiver = (.ok (), t1) →
        updateTipPin env key = (.ok key2, t2) →
        migrateToSafe env key2 = (.ok key3, t3) →
        migrateSafeAssets env receiver key3 = (.ok (), t4) →
        runPhases env receiver key = (.ok (), t1 ++ t2 ++ t3 ++ t4)) :=
  ⟨fun e t1 h => runPhases_legacy_err env receiver key e t1 h,
   fun t1 e t2 h1 h2 => runPhases_pin_err env receiver key t1 e t2 h1 h2,
   fun t1 key2 t2 e t3 h1 h2 h3 =>
     runPhases_safe_err env receiver key t1 key2 t2 e t3 h1 h2 h3,
   fun t1 key2 t2 key3 t3 e t4 h1 h2 h3 h4 =>
     runPhases_assets_err env receiver key t1 key2 t2 key3 t3 e t4 h1 h2 h3 h4,
   fun t1 key2 t2 key3 t3 t4 h1 h2 h3 h4 =>
     runPhases_all_ok env receiver key t1 key2 t2 key3 t3 t4 h1 h2 h3 h4⟩

theorem phase_order_fail_fast_witness :
    runPhases listFailEnv "recv" demoRec
      = (.error ("migrate legacy assets failed: "
          ++ "list legacy assets failed: boom"), []) :=
  (phase_order_fail_fast listFailEnv "recv" demoRec).1
    "list legacy assets failed: boom" [] (by decide)

/-- C9: a receiver whose identity number converts to 0 aborts the run with the
messenger-user validation error and an empty trace — so before any transfer,
rotation, activation, submission or keystore write; a receiver equal to the
wallet's own client id aborts the run with a validation error and an empty
trace, and with the distinct self error whenever its identity number is
genuine; the two validation errors are distinct. -/
theorem receiver_validation (env : Env) (args : List String)
    (key : KeystoreRec) (user : User)
    (hargs : args ≠ [])
    (hgroup : ¬(env.spendGroupCount = 0 ∨ 256 < env.spendGroupCount))
    (hload : env.loadKeystore = .ok key)
    (huser : env.fetchUser = .ok user) :
    (env.toInt64 user.identityNumber = 0 →
      runMain env args = (.error "receiver is not a mixin messenger user", []))
    ∧ (user.userID = key.clientID →
        (runMain env args
            = (.error "receiver is not a mixin messenger user", [])
          ∨ runMain env args = (.error "receiver is self", [])))
    ∧ (env.toInt64 user.identityNumber ≠ 0 → user.userID = key.clientID →
        runMain env args = (.error "receiver is self", []))
    ∧ "receiver is not a mixin messenger user" ≠ "receiver is self" := by
  have hne : args.isEmpty = false := by
    cases args with
    | nil => exact absurd rfl hargs
    | cons a as => rfl
  refine ⟨?_, ?_, ?_, by decide⟩
  · intro h0
    simp [runMain, hne, hgroup, hload, huser, h0]
  · intro hself
    by_cases h0 : env.toInt64 user.identityNumber = 0
    · left
      simp [runMain, hne, hgroup, hload, huser, h0]
    · right
      simp [runMain, hne, hgroup, hload, huser, h0, hself]
  · intro h0 hself
    simp [runMain, hne, hgroup, hload, huser, h0, hself]

theorem receiver_validation_witness :
    runMain zeroIdEnv ["user"]
      = (.error "receiver is not a mixin messenger user", []) :=
  (receiver_validation zeroIdEnv ["user"] demoRec ⟨"user", "abc", "Demo"⟩
      (by decide) (by decide) (by decide) (by decide)).1 (by decide)

/-! ### Trace and error-shape lemmas for the safe-drain phase -/

theorem sumUtxos_eq_sum (l : List SafeUtxo) :
    sumUtxos l = (l.map (fun u => u.amount)).sum := by
  have key : ∀ (l : List SafeUtxo) (init : Decimal),
      l.foldl (fun s u => s + u.amount) init
        = init + (l.map (fun u => u.amount)).sum := by
    intro l
    induction l with
    | nil => intro init; simp
    | cons u t ih => intro init; simp [List.foldl_cons, ih, add_assoc]
  simpa [sumUtxos] using key l 0

theorem runSeq_mem_trace (f : α → Except String Unit × List Event)
    (l : List α) (ev : Event) (h : ev ∈ (runSeq f l).2) :
    ∃ x ∈ l, ev ∈ (f x).2 := by
  induction l with
  | nil => simp [runSeq] at h
  | cons x xs ih =>
    rw [runSeq] at h
    rcases hfx : f x with ⟨rx, tx⟩
    rw [hfx] at h
    cases rx with
    | error e => exact ⟨x, List.mem_cons_self _ _, by rw [hfx]; exact h⟩
    | ok u =>
      rcases hrs : runSeq f xs with ⟨r2, t2⟩
      rw [hrs] at h
      rcases List.mem_append.mp h with h1 | h2
      · exact ⟨x, List.mem_cons_self _ _, by rw [hfx]; exact h1⟩
      · obtain ⟨y, hy, hey⟩ := ih (by rw [hrs]; exact h2)
        exact ⟨y, List.mem_cons_of_mem _ hy, hey⟩

theorem runSeq_error_mem (f : α → Except String Unit × List Event)
    (l : List α) (e : String) (h : (runSeq f l).1 = .error e) :
    ∃ x ∈ l, (f x).1 = .error e := by
  induction l with
  | nil => simp [runSeq] at h
  | cons x xs ih =>
    rw [runSeq] at h
    rcases hfx : f x with ⟨rx, tx⟩
    rw [hfx] at h
    cases rx with
    | error e2 =>
      simp only at h
      exact ⟨x, List.mem_cons_self _ _, by rw [hfx]; exact h⟩
    | ok u =>
      rcases hrs : runSeq f xs with ⟨r2, t2⟩
      rw [hrs] at h
      simp only at h
      obtain ⟨y, hy, hfy⟩ := ih (by rw [hrs]; exact h)
      exact ⟨y, List.mem_cons_of_mem _ hy, hfy⟩

theorem append_ne_of_head_ne (p e q : String) (c d : Char)
    (hp : p.data.head? = some c) (hq : q.data.head? = some d)
    (hcd : c ≠ d) : p ++ e ≠ q := by
  intro h
  apply hcd
  have hde : (p ++ e).data = p.data ++ e.data := String.data_append p e
  rw [← h, hde] at hq
  cases hp2 : p.data with
  | nil => rw [hp2] at hp; simp at hp
  | cons a t =>
    rw [hp2] at hp hq
    simp only [List.cons_append, List.head?_cons, Option.some.injEq] at hp hq
    rw [← hp, ← hq]

theorem pipelineGroup_make_shape (env : Env) (receiver : String)
    (spends ins : List SafeUtxo) (outs : List TxOutput)
    (h : Event.makeTransaction ins outs
      ∈ (pipelineGroup env receiver spends).2) :
    ins = spends ∧ outs = [⟨[receiver], 1, sumUtxos spends⟩] := by
  simp only [pipelineGroup] at h
  split at h
  · simp at h; exact ⟨h.1, h.2⟩
  · split at h
    · simp at h; exact ⟨h.1, h.2⟩
    · split at h
      · simp at h; exact ⟨h.1, h.2⟩
      · split at h
        · simp at h; exact ⟨h.1, h.2⟩
        · split at h
          · simp at h; exact ⟨h.1, h.2⟩
          · split at h
            · simp at h; exact ⟨h.1, h.2⟩
            · simp at h; exact ⟨h.1, h.2⟩

theorem pipelineGroup_error_shape (env : Env) (receiver : String)
    (spends : List SafeUtxo) (e : String)
    (h : (pipelineGroup env receiver spends).1 = .error e) :
    (∃ s, e = "make safe transaction failed: " ++ s)
    ∨ (∃ s, e = "dump transaction failed: " ++ s)
    ∨ (∃ s, e = "create transaction request failed: " ++ s)
    ∨ (∃ s, e = "sign transaction failed: " ++ s)
    ∨ (∃ s, e = "submit transaction request failed: " ++ s) := by
  simp only [pipelineGroup] at h
  split at h
  · simp only at h
    exact Or.inl ⟨_, by simpa using h.symm⟩
  · split at h
    · simp only at h
      exact Or.inr (Or.inl ⟨_, by simpa using h.symm⟩)
    · split at h
      · simp only at h
        exact Or.inr (Or.inr (Or.inl ⟨_, by simpa using h.symm⟩))
      · split at h
        · simp only at h
          exact Or.inr (Or.inr (Or.inr (Or.inl ⟨_, by simpa using h.symm⟩)))
        · split at h
          · simp only at h
            exact Or.inr (Or.inl ⟨_, by simpa using h.symm⟩)
          · split at h
            · simp only at h
              exact Or.inr (Or.inr (Or.inr (Or.inr ⟨_, by simpa using h.symm⟩)))
            · simp at h

theorem settleAsset_make_shape (env : Env) (receiver : String)
    (entry : String × List SafeUtxo) (ins : List SafeUtxo)
    (outs : List TxOutput)
    (h : Event.makeTransaction ins outs
      ∈ (settleAsset env receiver entry).2) :
    outs = [⟨[receiver], 1, sumUtxos ins⟩] := by
  simp only [settleAsset] at h
  split at h
  · simp at h
  · rcases hrs : runSeq (pipelineGroup env receiver)
        (chunkGroups env.spendGroupCount entry.2) with ⟨r, t⟩
    rw [hrs] at h
    simp only [List.mem_cons] at h
    rcases h with h1 | h2
    · exact absurd h1 (by simp)
    · obtain ⟨g, hg, hmem⟩ := runSeq_mem_trace _ _ _ (by rw [hrs]; exact h2)
      obtain ⟨h1, h2⟩ := pipelineGroup_make_shape env receiver g ins outs hmem
      rw [h2, h1]

theorem settleAsset_error_shape (env : Env) (receiver : String)
    (entry : String × List SafeUtxo) (e : String)
    (h : (settleAsset env receiver entry).1 = .error e) :
    (∃ s, e = "read safe asset " ++ s)
    ∨ (∃ s, e = "make safe transaction failed: " ++ s)
    ∨ (∃ s, e = "dump transaction failed: " ++ s)
    ∨ (∃ s, e = "create transaction request failed: " ++ s)
    ∨ (∃ s, e = "sign transaction failed: " ++ s)
    ∨ (∃ s, e = "submit transaction request failed: " ++ s) := by
  simp only [settleAsset] at h
  split at h
  · next e0 heq0 =>
    rw [Except.error.injEq] at h
    refine Or.inl ⟨entry.1 ++ (" failed: " ++ e0), ?_⟩
    rw [← h, String.append_assoc, String.append_assoc]
  · rcases hrs : runSeq (pipelineGroup env receiver)
        (chunkGroups env.spendGroupCount entry.2) with ⟨r, t⟩
    rw [hrs] at h
    simp only at h
    obtain ⟨g, hg, hfg⟩ := runSeq_error_mem _ _ _ (by rw [hrs]; exact h)
    exact Or.inr (pipelineGroup_error_shape env receiver g e hfg)

theorem collectLoop_error_shape (page : Nat → Except String (List SafeUtxo)) :
    ∀ (fuel offset : Nat) (e : String),
      (collectLoop page fuel offset).1 = .error e →
      ∃ s, e = "list safe utxos failed: " ++ s := by
  intro fuel
  induction fuel with
  | zero => intro offset e h; simp [collectLoop] at h
  | succ fuel ih =>
    intro offset e h
    rw [collectLoop] at h
    split at h
    · simp only at h
      exact ⟨_, by simpa using h.symm⟩
    · simp at h
    · next u us heq =>
      split at h
      · next e2 reqs d hrec =>
        rw [Except.error.injEq] at h
        obtain ⟨s, hs⟩ := ih _ e2 (by rw [hrec])
        exact ⟨s, by rw [← h]; exact hs⟩
      · next rest reqs d hrec =>
        simp at h

theorem migrateSafeAssets_not_invalid (env : Env) (receiver : String)
    (key : KeystoreRec) (k : Key)
    (hk : env.parseKey key.spendKey = some k) :
    (migrateSafeAssets env receiver key).1 ≠ .error "invalid spend key" := by
  intro h
  simp only [migrateSafeAssets] at h
  split at h
  · next e reqs d heq =>
    rw [Except.error.injEq] at h
    obtain ⟨s, hs⟩ := collectLoop_error_shape env.utxoPage env.enumFuel 0 e
      (by rw [heq])
    rw [h] at hs
    exact append_ne_of_head_ne "list safe utxos failed: " s
      "invalid spend key" 'l' 'i' rfl rfl (by decide) hs.symm
  · next visited reqs d heq =>
    split at h
    · simp at h
    · next g gs hgroups =>
      split at h
      · next hnone =>
        rw [hk] at hnone
        exact Option.noConfusion hnone
      · next k2 hk2 =>
        rcases hrs : runSeq (settleAsset env receiver) (g :: gs) with ⟨r, t⟩
        rw [hrs] at h
        simp only at h
        obtain ⟨entry, hmem, hent⟩ := runSeq_error_mem _ _ _ (by rw [hrs]; exact h)
        rcases settleAsset_error_shape env receiver entry _ hent with
          ⟨s, hs⟩ | ⟨s, hs⟩ | ⟨s, hs⟩ | ⟨s, hs⟩ | ⟨s, hs⟩ | ⟨s, hs⟩
        · exact append_ne_of_head_ne "read safe asset " s
            "invalid spend key" 'r' 'i' rfl rfl (by decide) hs.symm
        · exact append_ne_of_head_ne "make safe transaction failed: " s
            "invalid spend key" 'm' 'i' rfl rfl (by decide) hs.symm
        · exact append_ne_of_head_ne "dump transaction failed: " s
            "invalid spend key" 'd' 'i' rfl rfl (by decide) hs.symm
        · exact append_ne_of_head_ne "create transaction request failed: " s
            "invalid spend key" 'c' 'i' rfl rfl (by decide) hs.symm
        · exact append_ne_of_head_ne "sign transaction failed: " s
            "invalid spend key" 's' 'i' rfl rfl (by decide) hs.symm
        · exact append_ne_of_head_ne "submit transaction request failed: " s
            "invalid spend key" 's' 'i' rfl rfl (by decide) hs.symm

/-- C6: every transaction the safe-drain pipeline constructs has exactly one
output — a one-signer mix address of the receiver — whose amount equals the
exact decimal sum of the amounts of the spend group's input UTXOs, with no
fee or other amount deducted. -/
theorem settled_group_sum (env : Env) (receiver : String) (key : KeystoreRec)
    (ins : List SafeUtxo) (outs : List TxOutput)
    (h : Event.makeTransaction ins outs
      ∈ (migrateSafeAssets env receiver key).2) :
    outs = [⟨[receiver], 1, (ins.map (fun u => u.amount)).sum⟩] := by
  rw [← sumUtxos_eq_sum]
  simp only [migrateSafeAssets] at h
  split at h
  · simp at h
  · next visited reqs d heq =>
    split at h
    · simp at h
    · next g gs hgroups =>
      split at h
      · simp at h
      · next k2 hk2 =>
        rcases hrs : runSeq (settleAsset env receiver) (g :: gs) with ⟨r, t⟩
        rw [hrs] at h
        simp only at h
        rcases List.mem_append.mp h with h1 | h2
        · exact absurd h1 (by simp)
        · obtain ⟨entry, hmem, hent⟩ :=
            runSeq_mem_trace _ _ _ (by rw [hrs]; exact h2)
          exact settleAsset_make_shape env receiver entry ins outs hent

theorem settled_group_sum_witness :
    ([⟨["recv"], 1, sumUtxos [⟨"a", 1, 0⟩]⟩] : List TxOutput)
      = [⟨["recv"], 1, (([⟨"a", (1 : Decimal), 0⟩] : List SafeUtxo).map
          (fun u => u.amount)).sum⟩] :=
  settled_group_sum miniEnv "recv" demoRec [⟨"a", 1, 0⟩]
    [⟨["recv"], 1, sumUtxos [⟨"a", 1, 0⟩]⟩]
    (by
      have htr : (migrateSafeAssets miniEnv "recv" demoRec).2
          = [.listUtxos 0, .listUtxos 1, .readAsset "a",
              .makeTransaction [⟨"a", 1, 0⟩]
                [⟨["recv"], 1, sumUtxos [⟨"a", 1, 0⟩]⟩],
              .createRequest "hint", .signTransaction 0,
              .submitRequest "hint"] := rfl
      rw [htr]
      simp)

/-- C10: if the safe-custody activation phase returned success then (given the
mixinnet round trip: a freshly generated key's string encoding parses back)
the record it hands to the next phase holds a spend key that parses as a
private key, so the safe-drain phase cannot fail with its distinct
`invalid spend key` error: that branch is unreachable. -/
theorem spend_key_valid_after_activation (env : Env) (receiver : String)
    (key key2 : KeystoreRec) (t : List Event)
    (hround : env.parseKey env.spendKeyGen.priv = some env.spendKeyGen)
    (h : migrateToSafe env key = (.ok key2, t)) :
    (∃ k, env.parseKey key2.spendKey = some k)
    ∧ (migrateSafeAssets env receiver key2).1 ≠ .error "invalid spend key" := by
  have hparse : ∃ k, env.parseKey key2.spendKey = some k := by
    rcases hp : env.parseKey key.spendKey with _ | k0
    · simp only [migrateToSafe, hp] at h
      split at h
      · simp at h
      · split at h
        · simp at h
        · simp only [Prod.mk.injEq, Except.ok.injEq] at h
          refine ⟨env.spendKeyGen, ?_⟩
          rw [← h.1]
          simpa using hround
    · simp only [migrateToSafe, hp, Prod.mk.injEq, Except.ok.injEq] at h
      exact ⟨k0, by rw [← h.1]; exact hp⟩
  obtain ⟨k, hk⟩ := hparse
  exact ⟨⟨k, hk⟩, migrateSafeAssets_not_invalid env receiver key2 k hk⟩

theorem spend_key_valid_after_activation_witness :
    (∃ k, baseEnv.parseKey demoRec.spendKey = some k)
    ∧ (migrateSafeAssets baseEnv "recv" demoRec).1
        ≠ .error "invalid spend key" :=
  spend_key_valid_after_activation baseEnv "recv" demoRec demoRec []
    (by decide) (by decide)

/-! ### JSON codec lemmas -/

theorem hexVal_hexDigit : ∀ n, n < 16 → hexVal (hexDigit n) = some n := by
  decide

theorem skipWs_cons_not (c : Char) (l : List Char)
    (h : ¬(c = ' ' ∨ c = '\n' ∨ c = '\r' ∨ c = '\t')) :
    skipWs (c :: l) = c :: l := by
  rw [skipWs, if_neg h]

theorem strTok_quote (rest : List Char) : strTok ('"' :: rest) = .close rest :=
  rfl

theorem strTok_plain (c : Char) (h1 : ¬c = '"') (h2 : ¬c = '\\')
    (rest : List Char) : strTok (c :: rest) = .ch c rest := by
  simp [strTok, h1, h2]

theorem strTok_escape (c : Char) (rest : List Char) :
    strTok (escapeChar c ++ rest) = .ch c rest := by
  rw [escapeChar]
  split_ifs with h1 h2 h3 h4 h5 h6 h7
  · subst h1; simp [strTok, escDecode]
  · subst h2; simp [strTok, escDecode]
  · subst h3; simp [strTok, escDecode]
  · subst h4; simp [strTok, escDecode]
  · subst h5; simp [strTok, escDecode]
  · have ht : c.toNat < 256 := by
      rcases h6 with h | h | h | h
      · omega
      · subst h; decide
      · subst h; decide
      · subst h; decide
    have hd1 : hexVal (hexDigit (c.toNat / 16)) = some (c.toNat / 16) :=
      hexVal_hexDigit _ (by omega)
    have hd2 : hexVal (hexDigit (c.toNat % 16)) = some (c.toNat % 16) :=
      hexVal_hexDigit _ (by omega)
    have h0 : hexVal '0' = some 0 := by decide
    simp [strTok, h0, hd1, hd2]
    have harith : c.toNat / 16 * 16 + c.toNat % 16 = c.toNat := by omega
    rw [harith, Char.ofNat_toNat]
  · have hd2 : hexVal (hexDigit (c.toNat % 16)) = some (c.toNat % 16) :=
      hexVal_hexDigit _ (by omega)
    have h0 : hexVal '0' = some 0 := by decide
    have h2v : hexVal '2' = some 2 := by decide
    simp [strTok, h0, h2v, hd2]
    have harith : 8224 + c.toNat % 16 = c.toNat := by
      rcases h7 with h | h <;> omega
    rw [harith, Char.ofNat_toNat]
  · simp [strTok, h1, h2]

theorem escapeChar_length_pos (c : Char) : 1 ≤ (escapeChar c).length := by
  rw [escapeChar]
  split_ifs <;> simp

theorem escape_length_ge : ∀ s : List Char, s.length ≤ (escape s).length := by
  intro s
  induction s with
  | nil => simp [escape]
  | cons c t ih =>
    have hesc : escape (c :: t) = escapeChar c ++ escape t := by simp [escape]
    rw [hesc, List.length_append, List.length_cons]
    have := escapeChar_length_pos c
    omega

theorem parse_escapeF : ∀ (s : List Char) (f : Nat) (rest : List Char),
    parseJStringF (f + s.length + 1) (escape s ++ '"' :: rest)
      = some (s, rest) := by
  intro s
  induction s with
  | nil =>
    intro f rest
    simp [escape, parseJStringF, strTok_quote]
  | cons c s ih =>
    intro f rest
    have hlen : f + (c :: s).length + 1 = (f + s.length + 1) + 1 := by
      simp [List.length_cons]
      omega
    have hesc : escape (c :: s) ++ '"' :: rest
        = escapeChar c ++ (escape s ++ '"' :: rest) := by
      simp [escape, List.append_assoc]
    rw [hlen, hesc, parseJStringF, strTok_escape]
    simp [ih f rest]

theorem parse_escape (s rest : List Char) :
    parseJString (escape s ++ '"' :: rest) = some (s, rest) := by
  unfold parseJString
  have hge := escape_length_ge s
  have hlen : (escape s ++ '"' :: rest).length
      = (escape s).length + (rest.length + 1) := by
    simp [List.length_append]
  have hf : (escape s ++ '"' :: rest).length
      = ((escape s ++ '"' :: rest).length - s.length - 1) + s.length + 1 := by
    omega
  rw [hf]
  exact parse_escapeF s _ rest

theorem parse_plainF : ∀ (name : List Char) (f : Nat) (rest : List Char),
    (∀ c ∈ name, ¬(c = '"' ∨ c = '\\')) →
    parseJStringF (f + name.length + 1) (name ++ '"' :: rest)
      = some (name, rest) := by
  intro name
  induction name with
  | nil =>
    intro f rest _
    simp [parseJStringF, strTok_quote]
  | cons c t ih =>
    intro f rest h
    have hc := h c (List.mem_cons_self _ _)
    push_neg at hc
    have hlen : f + (c :: t).length + 1 = (f + t.length + 1) + 1 := by
      simp [List.length_cons]
      omega
    rw [hlen, List.cons_append, parseJStringF,
      strTok_plain c hc.1 hc.2]
    simp [ih f rest (fun c2 hc2 => h c2 (List.mem_cons_of_mem _ hc2))]

theorem parse_plain (name rest : List Char)
    (h : ∀ c ∈ name, ¬(c = '"' ∨ c = '\\')) :
    parseJString (name ++ '"' :: rest) = some (name, rest) := by
  unfold parseJString
  have hlen : (name ++ '"' :: rest).length
      = name.length + (rest.length + 1) := by
    simp [List.length_append]
  have hf : (name ++ '"' :: rest).length
      = ((name ++ '"' :: rest).length - name.length - 1) + name.length + 1 := by
    omega
  rw [hf]
  exact parse_plainF name _ rest h

theorem parseMembersF_comma (name : List Char) (v : String) (fuel : Nat)
    (tail : List Char) (hname : ∀ c ∈ name, ¬(c = '"' ∨ c = '\\')) :
    parseMembersF (fuel + 1) (encMember name v ++ ',' :: tail)
      = Option.map (fun p => ((name, v.data) :: p.1, p.2))
          (parseMembersF fuel tail) := by
  have hkey := parse_plain name
    (':' :: ' ' :: '"' :: (escape v.data ++ '"' :: ',' :: tail)) hname
  have hval := parse_escape v.data (',' :: tail)
  have hshape : encMember name v ++ ',' :: tail
      = '\n' :: ' ' :: ' ' :: '"' ::
          (name ++ '"' :: ':' :: ' ' :: '"' ::
            (escape v.data ++ '"' :: ',' :: tail)) := by
    simp [encMember]
  rw [hshape, parseMembersF]
  simp [skipWs, hkey, hval]
  cases parseMembersF fuel tail with
  | none => rfl
  | some p =>
    obtain ⟨ms, r⟩ := p
    rfl

theorem parseMembersF_close (name : List Char) (v : String) (fuel : Nat)
    (rest : List Char) (hname : ∀ c ∈ name, ¬(c = '"' ∨ c = '\\')) :
    parseMembersF (fuel + 1) (encMember name v ++ '\n' :: '\x7d' :: rest)
      = some ([(name, v.data)], rest) := by
  have hkey := parse_plain name
    (':' :: ' ' :: '"' :: (escape v.data ++ '"' :: '\n' :: '\x7d' :: rest)) hname
  have hval := parse_escape v.data ('\n' :: '\x7d' :: rest)
  have hshape : encMember name v ++ '\n' :: '\x7d' :: rest
      = '\n' :: ' ' :: ' ' :: '"' ::
          (name ++ '"' :: ':' :: ' ' :: '"' ::
            (escape v.data ++ '"' :: '\n' :: '\x7d' :: rest)) := by
    simp [encMember]
  rw [hshape, parseMembersF]
  simp [skipWs, hkey, hval]

theorem parseMembersF_chain :
    ∀ (members : List (List Char × String)) (f : Nat) (rest : List Char),
      (∀ m ∈ members, ∀ c ∈ m.1, ¬(c = '"' ∨ c = '\\')) →
      members ≠ [] →
      parseMembersF (f + members.length)
          (encMembers members ++ '\n' :: '\x7d' :: rest)
        = some (members.map (fun m => (m.1, m.2.data)), rest) := by
  intro members
  induction members with
  | nil => intro f rest _ h; exact absurd rfl h
  | cons m ms ih =>
    intro f rest hplain _
    cases ms with
    | nil =>
      exact parseMembersF_close m.1 m.2 f rest
        (hplain m (List.mem_cons_self _ _))
    | cons m2 ms2 =>
      have hshape : encMembers (m :: m2 :: ms2) ++ '\n' :: '\x7d' :: rest
          = encMember m.1 m.2
              ++ ',' :: (encMembers (m2 :: ms2) ++ '\n' :: '\x7d' :: rest) := by
        show (encMember m.1 m.2 ++ ',' :: encMembers (m2 :: ms2))
            ++ '\n' :: '\x7d' :: rest = _
        simp [List.append_assoc]
      have hlen : f + (m :: m2 :: ms2).length
          = (f + (m2 :: ms2).length) + 1 := by
        simp [List.length_cons]
        omega
      rw [hlen, hshape,
        parseMembersF_comma m.1 m.2 (f + (m2 :: ms2).length) _
          (hplain m (List.mem_cons_self _ _)),
        ih f rest (fun x hx => hplain x (List.mem_cons_of_mem _ hx)) (by simp)]
      rfl

theorem encMember_length_pos (name : List Char) (v : String) :
    1 ≤ (encMember name v).length := by
  simp [encMember]

theorem encMembers_length_ge :
    ∀ members : List (List Char × String),
      members.length ≤ (encMembers members).length := by
  intro members
  induction members with
  | nil => simp [encMembers]
  | cons m ms ih =>
    cases ms with
    | nil =>
      have := encMember_length_pos m.1 m.2
      simp only [encMembers, List.length_cons, List.length_nil]
      omega
    | cons m2 ms2 =>
      have h1 := encMember_length_pos m.1 m.2
      have hunfold : encMembers (m :: m2 :: ms2)
          = encMember m.1 m.2 ++ ',' :: encMembers (m2 :: ms2) := rfl
      rw [hunfold]
      simp only [List.length_append, List.length_cons] at ih ⊢
      omega

theorem plain_client_id : ∀ c ∈ "client_id".data, ¬(c = '"' ∨ c = '\\') := by
  decide

theorem plain_session_id : ∀ c ∈ "session_id".data, ¬(c = '"' ∨ c = '\\') := by
  decide

theorem plain_private_key : ∀ c ∈ "private_key".data, ¬(c = '"' ∨ c = '\\') := by
  decide

theorem plain_pin_token : ∀ c ∈ "pin_token".data, ¬(c = '"' ∨ c = '\\') := by
  decide

theorem plain_pin : ∀ c ∈ "pin".data, ¬(c = '"' ∨ c = '\\') := by
  decide

theorem plain_spend_key : ∀ c ∈ "spend_key".data, ¬(c = '"' ∨ c = '\\') := by
  decide

theorem keystoreFields_plain (k : KeystoreRec) :
    ∀ m ∈ keystoreFields k, ∀ c ∈ m.1, ¬(c = '"' ∨ c = '\\') := by
  intro m hm
  unfold keystoreFields at hm
  by_cases hsp : k.spendKey = ""
  · simp [hsp] at hm
    rcases hm with h | h | h | h | h
    · subst h; exact plain_client_id
    · subst h; exact plain_session_id
    · subst h; exact plain_private_key
    · subst h; exact plain_pin_token
    · subst h; exact plain_pin
  · simp [hsp] at hm
    rcases hm with h | h | h | h | h | h
    · subst h; exact plain_client_id
    · subst h; exact plain_session_id
    · subst h; exact plain_private_key
    · subst h; exact plain_pin_token
    · subst h; exact plain_pin
    · subst h; exact plain_spend_key

theorem decode_encMembers (F : List (List Char × String)) (hF : F ≠ [])
    (hplain : ∀ m ∈ F, ∀ c ∈ m.1, ¬(c = '"' ∨ c = '\\'))
    (junk : List Char) :
    parseKeystoreObj
        ('\x7b' :: (encMembers F ++ '\n' :: '\x7d' :: ('\n' :: junk)))
      = some (F.map (fun m => (m.1, m.2.data)), '\n' :: junk) := by
  cases F with
  | nil => exact absurd rfl hF
  | cons m ms =>
    obtain ⟨Y, hY⟩ : ∃ Y,
        skipWs (encMembers (m :: ms) ++ '\n' :: '\x7d' :: ('\n' :: junk))
          = '"' :: Y := by
      cases ms with
      | nil =>
        refine ⟨m.1 ++ '"' :: ':' :: ' ' :: '"' ::
            (escape m.2.data ++ '"' :: '\n' :: '\x7d' :: '\n' :: junk), ?_⟩
        simp [encMembers, encMember, skipWs, List.append_assoc]
      | cons a b =>
        refine ⟨m.1 ++ '"' :: ':' :: ' ' :: '"' ::
            (escape m.2.data ++ '"' :: ',' ::
              (encMembers (a :: b) ++ '\n' :: '\x7d' :: '\n' :: junk)), ?_⟩
        show skipWs ((encMember m.1 m.2 ++ ',' :: encMembers (a :: b)) ++ _)
            = _
        simp [encMember, skipWs, List.append_assoc]
    have hge := encMembers_length_ge (m :: ms)
    have hlen :
        (encMembers (m :: ms) ++ '\n' :: '\x7d' :: ('\n' :: junk)).length
          = ((encMembers (m :: ms)
                ++ '\n' :: '\x7d' :: ('\n' :: junk)).length
              - (m :: ms).length) + (m :: ms).length := by
      rw [List.length_append]
      omega
    simp only [parseKeystoreObj]
    rw [skipWs_cons_not '\x7b' _ (by decide)]
    simp only [hY]
    rw [if_pos trivial, if_neg (by decide : ¬('"' : Char) = '\x7d')]
    rw [hlen, parseMembersF_chain (m :: ms) _ ('\n' :: junk) hplain (by simp)]

theorem decodeKeystore_encode (k : KeystoreRec) (junk : List Char) :
    decodeKeystore (encodeKeystore k ++ junk) = some (k, '\n' :: junk) := by
  have hshape : encodeKeystore k ++ junk
      = '\x7b' :: (encMembers (keystoreFields k)
          ++ '\n' :: '\x7d' :: ('\n' :: junk)) := by
    simp [encodeKeystore, List.append_assoc]
  have hne : keystoreFields k ≠ [] := by
    unfold keystoreFields
    by_cases hsp : k.spendKey = "" <;> simp [hsp]
  unfold decodeKeystore
  rw [hshape,
    decode_encMembers (keystoreFields k) hne (keystoreFields_plain k) junk]
  obtain ⟨c1, c2, c3, c4, c5, c6⟩ := k
  have hmk : ∀ s : String, String.mk s.data = s := fun s => rfl
  by_cases hsp : c6 = ""
  · subst hsp
    simp [keystoreFields, applyField, emptyRec, hmk]
  · simp [keystoreFields, hsp, applyField, emptyRec, hmk]

/-- C3: saving any record over any pre-existing keystore file — regardless of
the file's prior length and contents, even when stale bytes of a longer
previous content survive past the new encoding because the file is opened
without truncation — produces a file from which a subsequent load returns
exactly the saved record (the decoder stops after the first complete JSON
value and ignores the surviving trailing bytes), and the save leaves the
file's permission bits unchanged (no `O_CREATE`, so the mode argument is
never applied). -/
theorem keystore_overwrite_roundtrip (k : KeystoreRec) (f : FileState) :
    loadKeystoreFile (saveKeystoreFile k f) = some k
    ∧ (saveKeystoreFile k f).perm = f.perm := by
  constructor
  · unfold loadKeystoreFile saveKeystoreFile
    rw [decodeKeystore_encode k (f.contents.drop (encodeKeystore k).length)]
  · rfl

end MixinMigrate
